import Mathlib

/-!
Verification of the spaczz token-matching core (`TokenSearcher` in
`src/spaczz/search/tokensearcher.py` and `TokenMatcher` in
`src/spaczz/matcher/tokenmatcher.py`) against its natural-language
specification.

The Python code is shallowly embedded: Python dictionaries become
insertion-ordered association lists over `String` keys, pattern values
become the inductive `PyVal`, exceptions become `Option`/`Except`
results, and the external collaborators (the rapidfuzz function
registry, the fuzzy `regex` engine, spaCy's exact `Matcher`) are
parameters of the embedded functions.
-/

/-- Dynamic Python values occurring in spaczz token patterns: strings,
booleans, integers (`MIN_R` values, naturals 0-100 in the data model),
lists and string-keyed dictionaries.  Dictionaries are modelled as
insertion-ordered association lists, matching Python dict semantics for
the unique-key dictionaries the code manipulates. -/
inductive PyVal : Type where
  | str (s : String)
  | bool (b : Bool)
  | int (n : Nat)
  | list (xs : List PyVal)
  | dict (d : List (String × PyVal))

mutual

/-- Decidable equality for `PyVal` (hand-written because `PyVal` nests
through `List`). -/
def PyVal.decEq : (a b : PyVal) → Decidable (a = b)
  | .str a, .str b =>
    if h : a = b then isTrue (h ▸ rfl) else isFalse (fun he => h (PyVal.str.inj he))
  | .bool a, .bool b =>
    if h : a = b then isTrue (h ▸ rfl) else isFalse (fun he => h (PyVal.bool.inj he))
  | .int a, .int b =>
    if h : a = b then isTrue (h ▸ rfl) else isFalse (fun he => h (PyVal.int.inj he))
  | .list xs, .list ys =>
    match PyVal.decEqList xs ys with
    | isTrue h => isTrue (h ▸ rfl)
    | isFalse h => isFalse (fun he => h (PyVal.list.inj he))
  | .dict xs, .dict ys =>
    match PyVal.decEqDict xs ys with
    | isTrue h => isTrue (h ▸ rfl)
    | isFalse h => isFalse (fun he => h (PyVal.dict.inj he))
  | .str _, .bool _ => isFalse nofun
  | .str _, .int _ => isFalse nofun
  | .str _, .list _ => isFalse nofun
  | .str _, .dict _ => isFalse nofun
  | .bool _, .str _ => isFalse nofun
  | .bool _, .int _ => isFalse nofun
  | .bool _, .list _ => isFalse nofun
  | .bool _, .dict _ => isFalse nofun
  | .int _, .str _ => isFalse nofun
  | .int _, .bool _ => isFalse nofun
  | .int _, .list _ => isFalse nofun
  | .int _, .dict _ => isFalse nofun
  | .list _, .str _ => isFalse nofun
  | .list _, .bool _ => isFalse nofun
  | .list _, .int _ => isFalse nofun
  | .list _, .dict _ => isFalse nofun
  | .dict _, .str _ => isFalse nofun
  | .dict _, .bool _ => isFalse nofun
  | .dict _, .int _ => isFalse nofun
  | .dict _, .list _ => isFalse nofun

/-- Decidable equality for lists of `PyVal`. -/
def PyVal.decEqList : (xs ys : List PyVal) → Decidable (xs = ys)
  | [], [] => isTrue rfl
  | [], _ :: _ => isFalse nofun
  | _ :: _, [] => isFalse nofun
  | x :: xs, y :: ys =>
    match PyVal.decEq x y with
    | isFalse h => isFalse (fun he => h (List.cons.inj he).1)
    | isTrue h1 =>
      match PyVal.decEqList xs ys with
      | isTrue h2 => isTrue (by rw [h1, h2])
      | isFalse h2 => isFalse (fun he => h2 (List.cons.inj he).2)

/-- Decidable equality for string-keyed association lists of `PyVal`. -/
def PyVal.decEqDict : (xs ys : List (String × PyVal)) → Decidable (xs = ys)
  | [], [] => isTrue rfl
  | [], _ :: _ => isFalse nofun
  | _ :: _, [] => isFalse nofun
  | (k1, v1) :: xs, (k2, v2) :: ys =>
    if hk : k1 = k2 then
      match PyVal.decEq v1 v2 with
      | isFalse h =>
        isFalse (fun he => h (congrArg Prod.snd (List.cons.inj he).1))
      | isTrue h1 =>
        match PyVal.decEqDict xs ys with
        | isTrue h2 => isTrue (by rw [hk, h1, h2])
        | isFalse h2 => isFalse (fun he => h2 (List.cons.inj he).2)
    else isFalse (fun he => hk (congrArg Prod.fst (List.cons.inj he).1))

end

instance : DecidableEq PyVal := PyVal.decEq

/-- Python truthiness of a value: empty strings, `False`, `0`, empty
lists and empty dicts are falsy. -/
def PyVal.truthy : PyVal → Bool
  | .str s => !s.isEmpty
  | .bool b => b
  | .int n => n != 0
  | .list xs => !xs.isEmpty
  | .dict d => !d.isEmpty

/-- Truthiness of `x.get(key)`-style results: Python `None` is falsy. -/
def pyTruthy : Option PyVal → Bool
  | none => false
  | some v => v.truthy

/-- Whether a Python value is a `list` (`isinstance(x, list)`). -/
def PyVal.isList : PyVal → Bool
  | .list _ => true
  | _ => false

/-- Python `len(x)`: defined for strings, lists and dicts; calling `len`
on a bool or int raises `TypeError`, modelled as `none`. -/
def pyLen : PyVal → Option Nat
  | .str s => some s.length
  | .list xs => some xs.length
  | .dict d => some d.length
  | .bool _ => none
  | .int _ => none

/-- Dictionary read `d.get(key)`: value at the first matching key. -/
def alGet {β : Type} : List (String × β) → String → Option β
  | [], _ => none
  | (k, v) :: rest, key => if k = key then some v else alGet rest key

/-- Dictionary membership `key in d`. -/
def alContains {β : Type} (d : List (String × β)) (key : String) : Bool :=
  (alGet d key).isSome

/-- Dictionary write `d[key] = v`: replaces the value in place when the
key is present (keeping its position — Python dicts have unique keys, so
replacing the first occurrence is replacing the only one), otherwise
appends the new entry at the end. -/
def alSet {β : Type} : List (String × β) → String → β → List (String × β)
  | [], key, v => [(key, v)]
  | (k, w) :: rest, key, v =>
    if k = key then (key, v) :: rest else (k, w) :: alSet rest key v

/-- Dictionary deletion `del d[key]` for a key known to be present
(Python dicts have unique keys, so removing every entry with the key
removes exactly one). -/
def alErase {β : Type} (d : List (String × β)) (key : String) : List (String × β) :=
  d.filter (fun p => p.1 ≠ key)

/-- A token-spec: one position's constraint dictionary in a pattern,
e.g. Python `{"TEXT": {"FUZZY": "Ridley"}}`. -/
def TokenSpec : Type := List (String × PyVal)

instance : DecidableEq TokenSpec := by
  unfold TokenSpec
  infer_instance

/-- A slot result as produced by `TokenSearcher._iter_pattern`: `None`
for slots deferred verbatim to the exact matcher, or the pair
`(attribute name, matched token text)`. -/
def SlotResult : Type := Option (String × String)

instance : DecidableEq SlotResult := by
  unfold SlotResult
  infer_instance

/-- Python `str.lower()` as used on token texts and fuzzy targets:
character-wise case folding (the same fold as Lean's `String.toLower`,
written structurally over the character list so that concrete instances
compute). -/
def strLower (s : String) : String :=
  ⟨s.data.map Char.toLower⟩

/-- An underlying similarity-ratio function of the fuzzy-function
registry, keyed by function name: `name`, `s1`, `s2` to the cutoff-free
ratio.  Ratios are modelled as already-rounded naturals. -/
def FuzzyRegistry : Type := String → String → String → Nat

/-- The external fuzzy-capable regex engine: `regex.match(pattern,
text)` truthiness. -/
def RegexEngine : Type := String → String → Bool

/-- Modelled from the spec: the registry entries themselves
(`spaczz.registry.fuzzy_funcs`, not under `src/`) apply a score cutoff.
The `fuzzy_compare` docstring in `tokensearcher.py` documents the
behaviour: "For ratio < score_cutoff, 0 is returned instead", and §2 of
the spec gives the signature `(a, b, score_cutoff) -> ratio in [0,100]`. -/
def cutoffApply (r : String → String → Nat) (s1 s2 : String) (score_cutoff : Nat) : Nat :=
  if score_cutoff ≤ r s1 s2 then r s1 s2 else 0

namespace TokenSearcher

/-- Embedding of `TokenSearcher.fuzzy_compare`: optionally lower-cases
both strings, then applies the named registry function with the given
score cutoff.  Python's final `round` is the identity here because
ratios are modelled as already-rounded naturals. -/
def fuzzy_compare (R : FuzzyRegistry) (s1 s2 : String) (ignore_case : Bool)
    (score_cutoff : Nat) (fuzzy_func : String) : Nat :=
  let s1' := if ignore_case then strLower s1 else s1
  let s2' := if ignore_case then strLower s2 else s2
  cutoffApply (R fuzzy_func) s1' s2' score_cutoff

/-- Embedding of `TokenSearcher.regex_compare`: optionally lower-cases
the text, then asks the external regex engine whether the fuzzy-regex
pattern matches. -/
def regex_compare (rex : RegexEngine) (text pattern : String) (ignore_case : Bool) : Bool :=
  let text' := if ignore_case then strLower text else text
  rex pattern text'

/-- Embedding of `TokenSearcher._parse_case`: `text = token.get("TEXT");
if text: return text, "TEXT", False; return token.get("LOWER"), "LOWER",
True`.  Note the Python truthiness test: a falsy `TEXT` value (empty
string, `False`, `0`, empty dict) falls through to `LOWER`. -/
def parse_case (token : TokenSpec) : Option PyVal × String × Bool :=
  let text := alGet token "TEXT"
  if pyTruthy text then (text, "TEXT", false)
  else (alGet token "LOWER", "LOWER", true)

/-- Embedding of `TokenSearcher._parse_type`: returns the `FUZZY` target
and tag when `FUZZY` maps to a string (`isinstance(fuzzy_text, str)`),
else the `FREGEX` pattern and tag when `FREGEX` maps to a string, else
`("", "")`. -/
def parse_type (pattern_dict : List (String × PyVal)) : String × String :=
  match alGet pattern_dict "FUZZY" with
  | some (.str s) => (s, "FUZZY")
  | _ =>
    match alGet pattern_dict "FREGEX" with
    | some (.str s) => (s, "FREGEX")
    | _ => ("", "")

/-- The effective cutoff `pattern_dict.get("MIN_R", min_r)`.  `MIN_R`
values are integers 0-100 per the data model (§3); a non-integer value
would make the later `>=` comparison raise in Python and is outside the
model. -/
def getMinR (pattern_dict : List (String × PyVal)) (min_r : Nat) : Nat :=
  match alGet pattern_dict "MIN_R" with
  | some (.int n) => n
  | _ => min_r

/-- The effective fuzzy-function name `pattern_dict.get("FUZZY_FUNC",
fuzzy_func)`; non-string values would fail registry lookup in Python and
are outside the model. -/
def getFuzzyFunc (pattern_dict : List (String × PyVal)) (fuzzy_func : String) : String :=
  match alGet pattern_dict "FUZZY_FUNC" with
  | some (.str s) => s
  | _ => fuzzy_func

/-- One iteration of the loop body of `TokenSearcher._iter_pattern` for
window token text `tokText` against token-spec `spec`: `some r` records
slot result `r`, `none` models the `return []` that rejects the whole
window. -/
def evalSlot (R : FuzzyRegistry) (rex : RegexEngine) (min_r : Nat) (fuzzy_func : String)
    (tokText : String) (spec : TokenSpec) : Option SlotResult :=
  match parse_case spec with
  | (some (.dict d), case, case_bool) =>
    if (parse_type d).1 ≠ "" ∧ (parse_type d).2 = "FUZZY" then
      if fuzzy_compare R tokText (parse_type d).1 case_bool (getMinR d min_r)
          (getFuzzyFunc d fuzzy_func) ≥ getMinR d min_r
      then some (some (case, tokText))
      else none
    else if (parse_type d).1 ≠ "" ∧ (parse_type d).2 = "FREGEX" then
      if regex_compare rex tokText (parse_type d).1 case_bool
      then some (some (case, tokText))
      else none
    else some none
  | (_, _, _) => some none

/-- The slot loop of `TokenSearcher._iter_pattern` over the zipped
window/pattern pairs: collects slot results left to right, `none` when
some slot rejects the window. -/
def iterPatternZip (R : FuzzyRegistry) (rex : RegexEngine) (min_r : Nat) (fuzzy_func : String) :
    List (String × TokenSpec) → Option (List SlotResult)
  | [] => some []
  | (tok, spec) :: rest =>
    match evalSlot R rex min_r fuzzy_func tok spec with
    | none => none
    | some sr => (iterPatternZip R rex min_r fuzzy_func rest).map (sr :: ·)

/-- Embedding of `TokenSearcher._iter_pattern`: evaluates each token-spec
of `pattern` against the same position of the window `seq` (windows from
`n_wise` always have the pattern's length, so zipping loses nothing) and
returns the slot results, or `[]` when a slot rejects the window
(`return []` in the source). -/
def iter_pattern (R : FuzzyRegistry) (rex : RegexEngine) (seq : List String)
    (pattern : List TokenSpec) (min_r : Nat) (fuzzy_func : String) : List SlotResult :=
  (iterPatternZip R rex min_r fuzzy_func (seq.zip pattern)).getD []

/-- Modelled from the spec: `n_wise` (from `spaczz.util`, not under
`src/`).  §4.1: "generate every contiguous window of the document whose
length equals the pattern length (if the document is shorter than the
pattern, zero windows are produced)".  Windows appear left to right. -/
def n_wise (doc : List String) (n : Nat) : List (List String) :=
  (List.range (doc.length + 1 - n)).map (fun i => (doc.drop i).take n)

/-- Translation of the dedup comprehension in `TokenSearcher.match`,
`[match for i, match in enumerate(matches) if match not in matches[:i]]`:
an element is kept exactly when it does not occur among the elements
scanned before it, so `seen` carries the already-scanned prefix
(membership in `matches[:i]` is membership in `seen`). -/
def dedupFirstAux {α : Type} [DecidableEq α] (seen : List α) : List α → List α
  | [] => []
  | x :: xs =>
    if x ∈ seen then dedupFirstAux seen xs
    else x :: dedupFirstAux (x :: seen) xs

/-- The dedup comprehension applied to the whole candidate list. -/
def dedupFirst {α : Type} [DecidableEq α] (l : List α) : List α :=
  dedupFirstAux [] l

/-- The raw candidate list `matches` built by the window loop of
`TokenSearcher.match`: one entry per window whose slot evaluation
succeeded (`if seq_matches: matches.append(seq_matches)`), in window
order. -/
def rawCandidates (R : FuzzyRegistry) (rex : RegexEngine) (doc : List String)
    (pattern : List TokenSpec) (min_r : Nat) (fuzzy_func : String) : List (List SlotResult) :=
  ((n_wise doc pattern.length).map
    (fun seq => iter_pattern R rex seq pattern min_r fuzzy_func)).filter
    (fun r => !r.isEmpty)

/-- Embedding of `TokenSearcher.match`.  The `isinstance` checks on
`doc` and `pattern` are discharged by typing; the zero-token check
raises `ValueError`.  The source deduplicates only when `matches` is
nonempty, but deduplicating the empty list is the empty list, so the
branches coincide. -/
def match' (R : FuzzyRegistry) (rex : RegexEngine) (doc : List String)
    (pattern : List TokenSpec) (min_r : Nat) (fuzzy_func : String) :
    Except String (List (List SlotResult)) :=
  if pattern.length = 0 then .error "pattern cannot have zero tokens."
  else .ok (dedupFirst (rawCandidates R rex doc pattern min_r fuzzy_func))

end TokenSearcher

/-- Position of the first occurrence of `x` in `l` (the index of the
first window that produced a candidate, when `l` is the raw candidate
list). -/
def firstIdx {α : Type} [DecidableEq α] (l : List α) (x : α) : Nat :=
  List.indexOf x l

namespace TokenMatcher

/-- The `token_match[2]` subscript from the confidence expression in
`TokenMatcher.__call__`.  A slot result is `None` (subscripting raises
`TypeError`) or the 2-tuple `(attribute, text)` built by
`TokenSearcher._iter_pattern`, whose component sequence
`[attribute, text]` has no position 2 (subscripting raises
`IndexError`); a raised exception is modelled as `none`. -/
def tokenMatchSub2 (token_match : SlotResult) : Option String :=
  token_match.bind (fun p => List.get? [p.1, p.2] 2)

/-- Evaluation of the confidence generator of `TokenMatcher.__call__`,
`sum(token_match[2] / sum(...) * len(token) for token, token_match in
zip(doc[start:end], spaczz_match))`: each zipped pair first evaluates
`token_match[2]`; `none` models the exception aborting the `sum` (the
division and `round` are never reached once a term raises). -/
def matchConfidenceSubscripts (doc : List String) (start stop : Nat)
    (spaczz_match : List SlotResult) : Option (List String) :=
  (((doc.drop start).take (stop - start)).zip spaczz_match).mapM
    (fun p => tokenMatchSub2 p.2)

/-- One iteration of the loop of `TokenMatcher._spacyfy` on the
token-spec at the slot's position: `if token[0]:` subscripts the slot
result (`TypeError` on a `None` slot), then for a truthy attribute name
deletes that key (`KeyError` if absent) and writes the matched text
under `"TEXT"`. -/
def spacyfyStep (spec : TokenSpec) (slot : SlotResult) : Except String TokenSpec :=
  match slot with
  | none => .error "TypeError: NoneType object is not subscriptable"
  | some (attr, text) =>
    if attr ≠ "" then
      if alContains spec attr then
        .ok (alSet (alErase spec attr) "TEXT" (.str text))
      else .error "KeyError"
    else .ok spec

/-- The loop of `TokenMatcher._spacyfy` over `enumerate(match)`:
position `i` of the (deep-copied) pattern is rewritten from slot `i`;
indexing `new_pattern[i]` past the pattern's end raises `IndexError`;
pattern positions beyond the match are left untouched. -/
def spacyfyGo : List SlotResult → List TokenSpec → Except String (List TokenSpec)
  | [], rest => .ok rest
  | _ :: _, [] => .error "IndexError: list index out of range"
  | slot :: ms, spec :: ps => do
    let spec' ← spacyfyStep spec slot
    let rest ← spacyfyGo ms ps
    .ok (spec' :: rest)

/-- Embedding of `TokenMatcher._spacyfy` (`deepcopy` is the identity on
pure values). -/
def spacyfy (mtch : List SlotResult) (pattern : List TokenSpec) :
    Except String (List TokenSpec) :=
  spacyfyGo mtch pattern

/-- The mutable rule state of a `TokenMatcher`: `_patterns` (a
`defaultdict(list)` of label to registered pattern lists, where a
pattern is a dynamic Python value that `add` validates to be a nonempty
list) and `_callbacks` (label to optional `on_match` callback, callbacks
drawn from an opaque type `κ`). -/
structure MatcherState (κ : Type) where
  patterns : List (String × List PyVal)
  callbacks : List (String × Option κ)

/-- The `defaultdict` operation `self._patterns[label].append(x)`:
appends to the label's existing list in place (labels are unique keys,
so the first occurrence is the only one), materialising a fresh
one-element entry at the end when the label is absent. -/
def ddAppend {β : Type} : List (String × List β) → String → β → List (String × List β)
  | [], key, x => [(key, [x])]
  | (k, l) :: rest, key, x =>
    if k = key then (k, l ++ [x]) :: rest else (k, l) :: ddAppend rest key x

/-- Whether a dynamic pattern value passes both checks of the `add`
loop: `len(pattern) == 0` raises `ValueError` and non-lists raise
`TypeError`, so exactly nonempty lists are accepted. -/
def validPattern : PyVal → Bool
  | .list xs => !xs.isEmpty
  | _ => false

/-- The validation/append loop of `TokenMatcher.add`: processes the
supplied patterns left to right, mutating the patterns dict as it goes;
the first invalid pattern raises, leaving the mutations made so far in
place (the pair's second component is the raised error, if any). -/
def addLoop (label : String) : List PyVal → List (String × List PyVal) →
    List (String × List PyVal) × Option String
  | [], pd => (pd, none)
  | p :: ps, pd =>
    match pyLen p with
    | none => (pd, some "TypeError: object has no len()")
    | some n =>
      if n = 0 then (pd, some "ValueError: pattern cannot have zero tokens.")
      else if p.isList then addLoop label ps (ddAppend pd label p)
      else (pd, some "TypeError: Patterns must be lists of dictionaries.")

/-- Embedding of `TokenMatcher.add`: runs the validation/append loop and,
only when every pattern was accepted, assigns
`self._callbacks[label] = on_match`.  The returned `Option String` is
the raised exception, if any; in both cases the first component is the
state after the call. -/
def add {κ : Type} (st : MatcherState κ) (label : String) (patterns : List PyVal)
    (on_match : Option κ) : MatcherState κ × Option String :=
  match addLoop label patterns st.patterns with
  | (pd, none) => ({ patterns := pd, callbacks := alSet st.callbacks label on_match }, none)
  | (pd, some e) => ({ st with patterns := pd }, some e)

/-- Embedding of `TokenMatcher.remove`: `del self._patterns[label]` then
`del self._callbacks[label]`, with any `KeyError` re-raised as
`ValueError`.  When the first delete succeeds and the second raises, the
first deletion persists (Python mutations survive the exception). -/
def remove {κ : Type} (st : MatcherState κ) (label : String) :
    MatcherState κ × Option String :=
  if alContains st.patterns label then
    let st1 : MatcherState κ := { st with patterns := alErase st.patterns label }
    if alContains st1.callbacks label then
      ({ st1 with callbacks := alErase st1.callbacks label }, none)
    else (st1, some "ValueError: The label does not exist within the matcher rules.")
  else (st, some "ValueError: The label does not exist within the matcher rules.")

/-- Embedding of `TokenMatcher.__contains__`: `label in self._patterns`. -/
def containsLabel {κ : Type} (st : MatcherState κ) (label : String) : Bool :=
  alContains st.patterns label

/-- Embedding of `TokenMatcher.__len__`: the number of labels in
`self._patterns`. -/
def labelCount {κ : Type} (st : MatcherState κ) : Nat :=
  st.patterns.length

/-- Embedding of the `TokenMatcher.labels` property: the keys of
`self._patterns`. -/
def labels {κ : Type} (st : MatcherState κ) : List String :=
  st.patterns.map Prod.fst

/-- A match record as assembled in `TokenMatcher.__call__`:
`(label, start, end, ratio, json-serialized pattern)`. -/
structure MatchRec where
  label : String
  start : Int
  stop : Int
  ratio : Int
  pattern : String
deriving DecidableEq

/-- Lexicographic comparison of the Python sort-key triples
`(-start, end - start, ratio)`. -/
def tripleLe (x y : Int × Int × Int) : Prop :=
  x.1 < y.1 ∨ x.1 = y.1 ∧ (x.2.1 < y.2.1 ∨ x.2.1 = y.2.1 ∧ x.2.2 ≤ y.2.2)

instance : DecidableRel tripleLe := fun x y => by
  unfold tripleLe
  infer_instance

/-- The sort key `lambda x: (-x[1], x[2] - x[1], x[3])` of
`TokenMatcher.__call__`. -/
def matchKey (m : MatchRec) : Int × Int × Int :=
  (-m.start, m.stop - m.start, m.ratio)

/-- The order in which `sorted(matches, key=..., reverse=True)` emits
records: `a` may precede `b` exactly when `a`'s key is at least `b`'s
(descending keys). -/
def sortRel (a b : MatchRec) : Prop :=
  tripleLe (matchKey b) (matchKey a)

instance : DecidableRel sortRel := fun a b =>
  inferInstanceAs (Decidable (tripleLe (matchKey b) (matchKey a)))

instance : IsTotal MatchRec sortRel :=
  ⟨fun a b => by
    unfold sortRel tripleLe
    omega⟩

instance : IsTrans MatchRec sortRel :=
  ⟨fun a b c => by
    unfold sortRel tripleLe
    omega⟩

/-- Embedding of `sorted(matches, key=lambda x: (-x[1], x[2] - x[1],
x[3]), reverse=True)` from `TokenMatcher.__call__`.  The input order is
arbitrary (Python iterates a `set`), so the model quantifies over input
lists; `sorted` is a comparison sort of the decidable total preorder
`sortRel`. -/
def sortedMatches (l : List MatchRec) : List MatchRec :=
  l.insertionSort sortRel

end TokenMatcher

section AssocListLemmas

open TokenMatcher

variable {β : Type}

theorem alGet_eq_none_of_not_contains {d : List (String × β)} {k : String}
    (h : alContains d k = false) : alGet d k = none := by
  unfold alContains at h
  cases hg : alGet d k with
  | none => rfl
  | some v => rw [hg] at h; simp at h

theorem alGet_alSet_self (d : List (String × β)) (k : String) (v : β) :
    alGet (alSet d k v) k = some v := by
  induction d with
  | nil => rw [alSet, alGet, if_pos rfl]
  | cons p rest ih =>
    obtain ⟨k1, v1⟩ := p
    rw [alSet]
    by_cases hk : k1 = k
    · rw [if_pos hk, alGet, if_pos rfl]
    · rw [if_neg hk, alGet, if_neg hk]
      exact ih

theorem alGet_alSet_ne (d : List (String × β)) (k k' : String) (v : β) (h : k' ≠ k) :
    alGet (alSet d k v) k' = alGet d k' := by
  induction d with
  | nil =>
    have hne : ¬ (k = k') := fun he => h he.symm
    simp [alSet, alGet, hne]
  | cons p rest ih =>
    obtain ⟨k1, v1⟩ := p
    rw [alSet]
    by_cases hk : k1 = k
    · rw [if_pos hk, alGet, alGet, hk, if_neg (fun he => h he.symm),
        if_neg (fun he => h he.symm)]
    · rw [if_neg hk, alGet, alGet]
      by_cases hk' : k1 = k'
      · rw [if_pos hk', if_pos hk']
      · rw [if_neg hk', if_neg hk']
        exact ih

theorem alGet_alErase_self (d : List (String × β)) (k : String) :
    alGet (alErase d k) k = none := by
  induction d with
  | nil => simp [alErase, alGet]
  | cons p rest ih =>
    obtain ⟨k1, v1⟩ := p
    unfold alErase at ih ⊢
    by_cases hk : k1 = k
    · rw [List.filter_cons_of_neg (by simpa using hk)]
      exact ih
    · rw [List.filter_cons_of_pos (by simpa using hk)]
      rw [alGet, if_neg hk]
      exact ih

theorem alGet_alErase_ne (d : List (String × β)) (k k' : String) (h : k' ≠ k) :
    alGet (alErase d k) k' = alGet d k' := by
  induction d with
  | nil => simp [alErase, alGet]
  | cons p rest ih =>
    obtain ⟨k1, v1⟩ := p
    unfold alErase at ih ⊢
    by_cases hk : k1 = k
    · rw [List.filter_cons_of_neg (by simpa using hk)]
      rw [alGet, if_neg (by rw [hk]; exact fun he => h he.symm)]
      exact ih
    · rw [List.filter_cons_of_pos (by simpa using hk)]
      rw [alGet, alGet]
      by_cases hk' : k1 = k'
      · rw [if_pos hk', if_pos hk']
      · rw [if_neg hk', if_neg hk']
        exact ih

theorem ddAppend_get_self {d : List (String × List β)} {k : String} {old : List β} (x : β)
    (h : alGet d k = some old) : alGet (ddAppend d k x) k = some (old ++ [x]) := by
  induction d with
  | nil => rw [alGet] at h; exact absurd h (by simp)
  | cons p rest ih =>
    obtain ⟨k1, v1⟩ := p
    rw [alGet] at h
    rw [ddAppend]
    by_cases hk : k1 = k
    · rw [if_pos hk] at h ⊢
      rw [alGet, if_pos hk]
      simp only [Option.some.injEq] at h
      rw [h]
    · rw [if_neg hk] at h ⊢
      rw [alGet, if_neg hk]
      exact ih h

theorem ddAppend_get_new {d : List (String × List β)} {k : String} (x : β)
    (h : alGet d k = none) : alGet (ddAppend d k x) k = some [x] := by
  induction d with
  | nil => rw [ddAppend, alGet, if_pos rfl]
  | cons p rest ih =>
    obtain ⟨k1, v1⟩ := p
    rw [alGet] at h
    rw [ddAppend]
    by_cases hk : k1 = k
    · rw [if_pos hk] at h; exact absurd h (by simp)
    · rw [if_neg hk] at h
      rw [if_neg hk, alGet, if_neg hk]
      exact ih h

theorem ddAppend_get_ne (d : List (String × List β)) (k k' : String) (x : β) (h : k' ≠ k) :
    alGet (ddAppend d k x) k' = alGet d k' := by
  induction d with
  | nil =>
    have hne : ¬ (k = k') := fun he => h he.symm
    simp [ddAppend, alGet, hne]
  | cons p rest ih =>
    obtain ⟨k1, v1⟩ := p
    rw [ddAppend]
    by_cases hk : k1 = k
    · rw [if_pos hk, alGet, alGet]
      by_cases hk' : k1 = k'
      · exact absurd (hk'.symm.trans hk) h
      · rw [if_neg hk', if_neg hk']
    · rw [if_neg hk, alGet, alGet]
      by_cases hk' : k1 = k'
      · rw [if_pos hk', if_pos hk']
      · rw [if_neg hk', if_neg hk']
        exact ih

theorem ddAppend_keys_of_some {d : List (String × List β)} {k : String} {old : List β}
    (x : β) (h : alGet d k = some old) :
    (ddAppend d k x).map Prod.fst = d.map Prod.fst := by
  induction d with
  | nil => rw [alGet] at h; exact absurd h (by simp)
  | cons p rest ih =>
    obtain ⟨k1, v1⟩ := p
    rw [alGet] at h
    rw [ddAppend]
    by_cases hk : k1 = k
    · rw [if_pos hk]
      simp
    · rw [if_neg hk] at h
      rw [if_neg hk]
      simp only [List.map_cons]
      rw [ih h]

end AssocListLemmas

section DedupLemmas

open TokenSearcher

variable {α : Type} [DecidableEq α]

theorem mem_dedupFirstAux {x : α} :
    ∀ (l seen : List α), x ∈ dedupFirstAux seen l ↔ x ∈ l ∧ x ∉ seen := by
  intro l
  induction l with
  | nil => intro seen; simp [dedupFirstAux]
  | cons y ys ih =>
    intro seen
    rw [dedupFirstAux]
    by_cases hy : y ∈ seen
    · rw [if_pos hy, ih]
      by_cases hxy : x = y
      · subst hxy; simp [hy]
      · simp [hxy]
    · rw [if_neg hy]
      simp only [List.mem_cons, ih, not_or]
      by_cases hxy : x = y
      · subst hxy; simp [hy]
      · simp [hxy]

theorem dedupFirstAux_pairwise :
    ∀ (l pre seen : List α), (∀ x, x ∈ seen ↔ x ∈ pre) →
      (dedupFirstAux seen l).Pairwise
        (fun a b => firstIdx (pre ++ l) a < firstIdx (pre ++ l) b) := by
  intro l
  induction l with
  | nil => intro pre seen _; simp [dedupFirstAux]
  | cons y ys ih =>
    intro pre seen hinv
    rw [dedupFirstAux]
    by_cases hy : y ∈ seen
    · rw [if_pos hy]
      have hinv' : ∀ x, x ∈ seen ↔ x ∈ pre ++ [y] := by
        intro x
        rw [hinv x]
        constructor
        · intro hx; exact List.mem_append.mpr (Or.inl hx)
        · intro hx
          rcases List.mem_append.mp hx with h1 | h1
          · exact h1
          · have : x = y := by simpa using h1
            subst this
            exact (hinv x).mp hy
      have := ih (pre ++ [y]) seen hinv'
      rwa [List.append_assoc, List.singleton_append] at this
    · rw [if_neg hy]
      rw [List.pairwise_cons]
      have hynpre : y ∉ pre := fun hc => hy ((hinv y).mpr hc)
      constructor
      · intro b hb
        rw [mem_dedupFirstAux] at hb
        obtain ⟨hbys, hbns⟩ := hb
        have hbny : b ≠ y := by
          intro he; exact hbns (he ▸ List.mem_cons_self y seen)
        have hbnseen : b ∉ seen := fun hc => hbns (List.mem_cons_of_mem _ hc)
        have hbnpre : b ∉ pre := fun hc => hbnseen ((hinv b).mpr hc)
        unfold firstIdx
        rw [List.indexOf_append_of_not_mem hynpre,
          List.indexOf_append_of_not_mem hbnpre,
          List.indexOf_cons_self, List.indexOf_cons_ne _ (fun he => hbny he.symm)]
        omega
      · have hinv' : ∀ x, x ∈ y :: seen ↔ x ∈ pre ++ [y] := by
          intro x
          rw [List.mem_cons, hinv x, List.mem_append]
          constructor
          · rintro (h1 | h1)
            · exact Or.inr (by simpa using h1)
            · exact Or.inl h1
          · rintro (h1 | h1)
            · exact Or.inr h1
            · exact Or.inl (by simpa using h1)
        have := ih (pre ++ [y]) (y :: seen) hinv'
        rwa [List.append_assoc, List.singleton_append] at this

theorem mem_dedupFirst {x : α} (l : List α) : x ∈ dedupFirst l ↔ x ∈ l := by
  unfold dedupFirst
  rw [mem_dedupFirstAux]
  simp

theorem dedupFirst_pairwise (l : List α) :
    (dedupFirst l).Pairwise (fun a b => firstIdx l a < firstIdx l b) := by
  unfold dedupFirst
  have := dedupFirstAux_pairwise l [] [] (by simp)
  simpa using this

theorem dedupFirst_nodup (l : List α) : (dedupFirst l).Nodup := by
  apply List.Pairwise.imp _ (dedupFirst_pairwise l)
  intro a b hab he
  subst he
  exact lt_irrefl _ hab

end DedupLemmas

section SearcherLemmas

open TokenSearcher

theorem cutoff_accept_iff (r c : Nat) : (c ≤ if c ≤ r then r else 0) ↔ c ≤ r := by
  by_cases h : c ≤ r
  · simp [h]
  · simp [h]
    omega

theorem getMinR_le_of_le (d : List (String × PyVal)) {min_r min_r' : Nat}
    (h : min_r' ≤ min_r) : getMinR d min_r' ≤ getMinR d min_r := by
  unfold getMinR
  split <;> omega

theorem evalSlot_mono {R : FuzzyRegistry} {rex : RegexEngine} {min_r min_r' : Nat}
    {ff tok : String} {spec : TokenSpec} {sr : SlotResult}
    (h : min_r' ≤ min_r)
    (hs : evalSlot R rex min_r ff tok spec = some sr) :
    evalSlot R rex min_r' ff tok spec = some sr := by
  rcases hpc : parse_case spec with ⟨pv, case, cb⟩
  cases pv with
  | none =>
    simp only [evalSlot, hpc] at hs ⊢
    exact hs
  | some v =>
    cases v with
    | dict d =>
      simp only [evalSlot, hpc] at hs ⊢
      by_cases hf : (parse_type d).1 ≠ "" ∧ (parse_type d).2 = "FUZZY"
      · rw [if_pos hf] at hs ⊢
        by_cases hacc : fuzzy_compare R tok (parse_type d).1 cb (getMinR d min_r)
            (getFuzzyFunc d ff) ≥ getMinR d min_r
        · rw [if_pos hacc] at hs
          have hr : getMinR d min_r ≤
              R (getFuzzyFunc d ff) (if cb then strLower tok else tok)
                (if cb then strLower (parse_type d).1 else (parse_type d).1) := by
            have := (cutoff_accept_iff
              (R (getFuzzyFunc d ff) (if cb then strLower tok else tok)
                (if cb then strLower (parse_type d).1 else (parse_type d).1))
              (getMinR d min_r)).mp
            exact this hacc
          have hr' : getMinR d min_r' ≤
              R (getFuzzyFunc d ff) (if cb then strLower tok else tok)
                (if cb then strLower (parse_type d).1 else (parse_type d).1) :=
            le_trans (getMinR_le_of_le d h) hr
          have hacc' : fuzzy_compare R tok (parse_type d).1 cb (getMinR d min_r')
              (getFuzzyFunc d ff) ≥ getMinR d min_r' := by
            exact (cutoff_accept_iff _ _).mpr hr'
          rw [if_pos hacc']
          exact hs
        · rw [if_neg hacc] at hs
          exact absurd hs (by simp)
      · rw [if_neg hf] at hs ⊢
        exact hs
    | str a => simp only [evalSlot, hpc] at hs ⊢; exact hs
    | bool a => simp only [evalSlot, hpc] at hs ⊢; exact hs
    | int a => simp only [evalSlot, hpc] at hs ⊢; exact hs
    | list a => simp only [evalSlot, hpc] at hs ⊢; exact hs

theorem iterPatternZip_mono {R : FuzzyRegistry} {rex : RegexEngine} {min_r min_r' : Nat}
    {ff : String} {res : List SlotResult}
    (h : min_r' ≤ min_r) :
    ∀ {l : List (String × TokenSpec)},
      iterPatternZip R rex min_r ff l = some res →
      iterPatternZip R rex min_r' ff l = some res := by
  intro l
  induction l generalizing res with
  | nil => intro hs; exact hs
  | cons p rest ih =>
    intro hs
    obtain ⟨tok, spec⟩ := p
    rw [iterPatternZip] at hs ⊢
    cases he : evalSlot R rex min_r ff tok spec with
    | none => rw [he] at hs; exact absurd hs (by simp)
    | some sr =>
      rw [he] at hs
      rw [evalSlot_mono h he]
      cases hrest : iterPatternZip R rex min_r ff rest with
      | none => rw [hrest] at hs; exact absurd hs (by simp)
      | some res' =>
        rw [hrest] at hs
        rw [ih hrest]
        exact hs

end SearcherLemmas

section SearcherLemmas2

open TokenSearcher

theorem iter_pattern_mono {R : FuzzyRegistry} {rex : RegexEngine} {min_r min_r' : Nat}
    {ff : String} {seq : List String} {pattern : List TokenSpec} {cand : List SlotResult}
    (h : min_r' ≤ min_r) (hne : cand ≠ [])
    (hs : iter_pattern R rex seq pattern min_r ff = cand) :
    iter_pattern R rex seq pattern min_r' ff = cand := by
  unfold iter_pattern at hs ⊢
  cases hz : iterPatternZip R rex min_r ff (seq.zip pattern) with
  | none =>
    rw [hz] at hs
    simp at hs
    exact absurd hs.symm (fun he => hne he.symm)
  | some res =>
    rw [hz] at hs
    simp only [Option.getD_some] at hs
    rw [iterPatternZip_mono h hz]
    simpa using hs

theorem mem_rawCandidates_mono {R : FuzzyRegistry} {rex : RegexEngine} {min_r min_r' : Nat}
    {ff : String} {doc : List String} {pattern : List TokenSpec} {cand : List SlotResult}
    (h : min_r' ≤ min_r)
    (hc : cand ∈ rawCandidates R rex doc pattern min_r ff) :
    cand ∈ rawCandidates R rex doc pattern min_r' ff := by
  unfold rawCandidates at hc ⊢
  rw [List.mem_filter] at hc ⊢
  obtain ⟨hmem, hne⟩ := hc
  rw [List.mem_map] at hmem
  obtain ⟨seq, hseq, heq⟩ := hmem
  have hne' : cand ≠ [] := by
    intro he
    rw [he] at hne
    simp at hne
  refine ⟨List.mem_map.mpr ⟨seq, hseq, ?_⟩, hne⟩
  exact iter_pattern_mono h hne' heq

end SearcherLemmas2

section MatcherLemmas

open TokenMatcher

theorem spacyfyGo_cons (slot : SlotResult) (ms : List SlotResult) (spec : TokenSpec)
    (ps : List TokenSpec) :
    spacyfyGo (slot :: ms) (spec :: ps)
      = (spacyfyStep spec slot).bind
          (fun spec' => (spacyfyGo ms ps).bind (fun rest => .ok (spec' :: rest))) := rfl

theorem spacyfy_error_of_none_mem :
    ∀ (m : List SlotResult) (p : List TokenSpec), none ∈ m →
      ∃ e, TokenMatcher.spacyfy m p = .error e := by
  intro m
  induction m with
  | nil => intro p h; simp at h
  | cons sl ms ih =>
    intro p h
    cases p with
    | nil => exact ⟨"IndexError: list index out of range", rfl⟩
    | cons spec ps =>
      cases sl with
      | none => exact ⟨"TypeError: NoneType object is not subscriptable", rfl⟩
      | some pr =>
        have hms : none ∈ ms := by
          rcases List.mem_cons.mp h with h1 | h1
          · exact absurd h1.symm (by simp)
          · exact h1
        obtain ⟨e, he⟩ := ih ps hms
        unfold TokenMatcher.spacyfy at he ⊢
        rw [spacyfyGo_cons]
        cases hstep : spacyfyStep spec (some pr) with
        | error e' => exact ⟨e', rfl⟩
        | ok spec' =>
          rw [he]
          exact ⟨e, rfl⟩

theorem spacyfy_ok_of_slots :
    ∀ {m : List SlotResult} {p : List TokenSpec},
      List.Forall₂ (fun (sl : SlotResult) (spec : TokenSpec) =>
        ∃ a t, sl = some (a, t) ∧ a ≠ "" ∧ alContains spec a = true) m p →
      ∃ q, TokenMatcher.spacyfy m p = .ok q ∧
        List.Forall₂ (fun (pr : SlotResult × TokenSpec) (outspec : TokenSpec) =>
          ∀ a t, pr.1 = some (a, t) →
            alGet outspec "TEXT" = some (.str t) ∧
            (a ≠ "TEXT" → alGet outspec a = none) ∧
            (∀ k, k ≠ a → k ≠ "TEXT" → alGet outspec k = alGet pr.2 k))
          (m.zip p) q := by
  intro m p h
  induction h with
  | nil => exact ⟨[], rfl, List.Forall₂.nil⟩
  | @cons sl spec ms ps hrel _hrest ih =>
    obtain ⟨a, t, hsl, ha, hcont⟩ := hrel
    obtain ⟨q', hq', hfor⟩ := ih
    subst hsl
    have hstep : spacyfyStep spec (some (a, t))
        = .ok (alSet (alErase spec a) "TEXT" (.str t)) := by
      simp [spacyfyStep, ha, hcont]
    refine ⟨alSet (alErase spec a) "TEXT" (.str t) :: q', ?_, ?_⟩
    · unfold TokenMatcher.spacyfy at hq' ⊢
      rw [spacyfyGo_cons, hstep, hq']
      rfl
    · rw [List.zip_cons_cons]
      refine List.Forall₂.cons ?_ hfor
      intro a' t' hpr
      simp only [Option.some.injEq, Prod.mk.injEq] at hpr
      obtain ⟨rfl, rfl⟩ := hpr
      refine ⟨alGet_alSet_self _ _ _, ?_, ?_⟩
      · intro hat
        rw [alGet_alSet_ne _ _ _ _ hat]
        exact alGet_alErase_self _ _
      · intro k hka hkT
        rw [alGet_alSet_ne _ _ _ _ hkT]
        exact alGet_alErase_ne _ _ _ hka

theorem addLoop_cons_valid {label : String} {q : PyVal} (rest : List PyVal)
    (pd : List (String × List PyVal)) (hq : validPattern q = true) :
    addLoop label (q :: rest) pd = addLoop label rest (ddAppend pd label q) := by
  cases q with
  | list xs =>
    have hxs : xs ≠ [] := by
      unfold validPattern at hq
      simpa using hq
    have hlen : ¬ (xs.length = 0) := by
      simpa [List.length_eq_zero] using hxs
    simp [addLoop, pyLen, hlen, PyVal.isList]
  | str s => simp [validPattern] at hq
  | bool b => simp [validPattern] at hq
  | int n => simp [validPattern] at hq
  | dict d => simp [validPattern] at hq

theorem addLoop_all_valid {label : String} :
    ∀ (pats : List PyVal) (pd : List (String × List PyVal)),
      (∀ q ∈ pats, validPattern q = true) →
      addLoop label pats pd = (pats.foldl (fun d q => ddAppend d label q) pd, none) := by
  intro pats
  induction pats with
  | nil => intro pd _; rfl
  | cons q rest ih =>
    intro pd hall
    rw [addLoop_cons_valid rest pd (hall q (List.mem_cons_self q rest))]
    rw [ih (ddAppend pd label q) (fun r hr => hall r (List.mem_cons_of_mem _ hr))]
    rfl

theorem addLoop_invalid_head {label : String} {p : PyVal} (post : List PyVal)
    (pd : List (String × List PyVal)) (hp : validPattern p = false) :
    ∃ e, addLoop label (p :: post) pd = (pd, some e) := by
  cases p with
  | str s =>
    by_cases hlen : s.length = 0
    · exact ⟨"ValueError: pattern cannot have zero tokens.",
        by simp [addLoop, pyLen, hlen]⟩
    · exact ⟨"TypeError: Patterns must be lists of dictionaries.",
        by simp [addLoop, pyLen, hlen, PyVal.isList]⟩
  | bool b => exact ⟨"TypeError: object has no len()", by simp [addLoop, pyLen]⟩
  | int n => exact ⟨"TypeError: object has no len()", by simp [addLoop, pyLen]⟩
  | list xs =>
    have hxs : xs = [] := by
      unfold validPattern at hp
      simpa using hp
    subst hxs
    exact ⟨"ValueError: pattern cannot have zero tokens.", by simp [addLoop, pyLen]⟩
  | dict d =>
    by_cases hlen : d.length = 0
    · exact ⟨"ValueError: pattern cannot have zero tokens.",
        by simp [addLoop, pyLen, hlen]⟩
    · exact ⟨"TypeError: Patterns must be lists of dictionaries.",
        by simp [addLoop, pyLen, hlen, PyVal.isList]⟩

theorem addLoop_prefix_invalid {label : String} {p : PyVal} (post : List PyVal)
    (hp : validPattern p = false) :
    ∀ (pre : List PyVal) (pd : List (String × List PyVal)),
      (∀ q ∈ pre, validPattern q = true) →
      ∃ e, addLoop label (pre ++ p :: post) pd
        = (pre.foldl (fun d q => ddAppend d label q) pd, some e) := by
  intro pre
  induction pre with
  | nil => intro pd _; exact addLoop_invalid_head post pd hp
  | cons q rest ih =>
    intro pd hall
    rw [List.cons_append,
      addLoop_cons_valid _ pd (hall q (List.mem_cons_self q rest))]
    exact ih (ddAppend pd label q) (fun r hr => hall r (List.mem_cons_of_mem _ hr))

end MatcherLemmas

section FoldlAppendLemmas

open TokenMatcher

theorem foldl_ddAppend_get_self {label : String} :
    ∀ (pats : List PyVal) (pd : List (String × List PyVal)) (old : List PyVal),
      alGet pd label = some old →
      alGet (pats.foldl (fun d q => ddAppend d label q) pd) label = some (old ++ pats) := by
  intro pats
  induction pats with
  | nil => intro pd old h; simpa using h
  | cons q qs ih =>
    intro pd old h
    rw [List.foldl_cons]
    have := ih (ddAppend pd label q) (old ++ [q]) (ddAppend_get_self q h)
    rwa [List.append_assoc, List.singleton_append] at this

theorem foldl_ddAppend_get_ne {label l : String} (h : l ≠ label) :
    ∀ (pats : List PyVal) (pd : List (String × List PyVal)),
      alGet (pats.foldl (fun d q => ddAppend d label q) pd) l = alGet pd l := by
  intro pats
  induction pats with
  | nil => intro pd; rfl
  | cons q qs ih =>
    intro pd
    rw [List.foldl_cons, ih (ddAppend pd label q), ddAppend_get_ne pd label l q h]

theorem foldl_ddAppend_keys {label : String} :
    ∀ (pats : List PyVal) (pd : List (String × List PyVal)) (old : List PyVal),
      alGet pd label = some old →
      (pats.foldl (fun d q => ddAppend d label q) pd).map Prod.fst = pd.map Prod.fst := by
  intro pats
  induction pats with
  | nil => intro pd old _; rfl
  | cons q qs ih =>
    intro pd old h
    rw [List.foldl_cons, ih (ddAppend pd label q) (old ++ [q]) (ddAppend_get_self q h),
      ddAppend_keys_of_some q h]

end FoldlAppendLemmas

/-- C1: the claim states that each produced span's recorded confidence is
the character-length-weighted average of per-token similarity strength
(measured ratio for fuzzy/regex slots, 100 for `None` slots), rounded to
an integer in 0-100.  The code cannot compute any such value: the
confidence expression of `TokenMatcher.__call__` reads `token_match[2]`,
but `TokenSearcher._iter_pattern` produces slot results that are `None`
(subscripting raises `TypeError`) or 2-tuples `(attribute, text)`
(index 2 raises `IndexError`), so whenever the zipped span/slot sequence
is nonempty the confidence evaluation raises and `__call__` propagates
the exception instead of recording a match — contradicting the class
docstring example and the module's own tests, which expect match lists
to be returned. -/
theorem c1_confidence_subscript_raises (doc : List String) (start stop : Nat)
    (m : List SlotResult)
    (h : ((doc.drop start).take (stop - start)).zip m ≠ []) :
    TokenMatcher.matchConfidenceSubscripts doc start stop m = none := by
  unfold TokenMatcher.matchConfidenceSubscripts
  cases hz : ((doc.drop start).take (stop - start)).zip m with
  | nil => exact absurd hz h
  | cons p rest =>
    have h2 : TokenMatcher.tokenMatchSub2 p.2 = none := by
      cases p2 : p.2 with
      | none => rfl
      | some pr => rfl
    rw [List.mapM_cons, h2]
    rfl

/-- Witness for C1 at the matcher docstring's own example: the span
`doc[0:2]` of "Rdley Scot was the director of Alien ." paired with the
candidate produced for the pattern
`[{"TEXT": {"FUZZY": "Ridley"}}, {"TEXT": {"FUZZY": "Scott"}}]`. -/
theorem c1_confidence_subscript_raises_witness :
    ((["Rdley", "Scot", "was", "the", "director", "of", "Alien", "."].drop 0).take (2 - 0)).zip
        [(some ("TEXT", "Rdley") : SlotResult), some ("TEXT", "Scot")] ≠ [] ∧
    TokenMatcher.matchConfidenceSubscripts
        ["Rdley", "Scot", "was", "the", "director", "of", "Alien", "."] 0 2
        [some ("TEXT", "Rdley"), some ("TEXT", "Scot")] = none :=
  ⟨by decide,
    c1_confidence_subscript_raises
      ["Rdley", "Scot", "was", "the", "director", "of", "Alien", "."] 0 2
      [some ("TEXT", "Rdley"), some ("TEXT", "Scot")] (by decide)⟩

/-- C2 counterexample: for the candidate slot `("LOWER", "acess")` over
the one-token pattern `[{"LOWER": {"FUZZY": "access"}}]`, `_spacyfy`
deletes the recorded attribute's entry and writes the literal constraint
under the key `TEXT`, so the concretized token-spec carries no `LOWER`
constraint at all — the claim requires the literal exact constraint to
sit on the recorded attribute (`LOWER` here). -/
theorem c2_spacyfy_counterexample :
    TokenMatcher.spacyfy [some ("LOWER", "acess")]
        [[("LOWER", PyVal.dict [("FUZZY", PyVal.str "access")])]]
      = .ok [[("TEXT", PyVal.str "acess")]] ∧
    alGet [("TEXT", PyVal.str "acess")] "LOWER" = none ∧
    ([[("TEXT", PyVal.str "acess")]] : List TokenSpec)
      ≠ [[("LOWER", PyVal.str "acess")]] :=
  ⟨rfl, rfl, by decide⟩

/-- C2 (amended): when every slot of the candidate is a non-`None` pair
`(a, t)` with a truthy attribute present in the corresponding token-spec,
concretization succeeds and rewrites each token-spec to carry the
literal exact constraint under the key `TEXT` (not the recorded
attribute) with the recorded matched text, removing the entry under the
recorded attribute and leaving every other entry (quantifiers, other
attributes) unchanged; and every candidate containing a `None` slot
makes `_spacyfy` raise (`token[0]` subscripts `None`), so `None` slots
are not left untouched in this version. -/
theorem c2_spacyfy_amended :
    (∀ (m : List SlotResult) (p : List TokenSpec),
      List.Forall₂ (fun (sl : SlotResult) (spec : TokenSpec) =>
        ∃ a t, sl = some (a, t) ∧ a ≠ "" ∧ alContains spec a = true) m p →
      ∃ q, TokenMatcher.spacyfy m p = .ok q ∧
        List.Forall₂ (fun (pr : SlotResult × TokenSpec) (outspec : TokenSpec) =>
          ∀ a t, pr.1 = some (a, t) →
            alGet outspec "TEXT" = some (.str t) ∧
            (a ≠ "TEXT" → alGet outspec a = none) ∧
            (∀ k, k ≠ a → k ≠ "TEXT" → alGet outspec k = alGet pr.2 k))
          (m.zip p) q) ∧
    (∀ (m : List SlotResult) (p : List TokenSpec), none ∈ m →
      ∃ e, TokenMatcher.spacyfy m p = .error e) :=
  ⟨fun _ _ h => spacyfy_ok_of_slots h, spacyfy_error_of_none_mem⟩

/-- Witness for C2 (amended): a `LOWER` fuzzy slot in a token-spec that
also carries an `OP` quantifier, and a candidate with a `None` slot. -/
theorem c2_spacyfy_amended_witness :
    (∃ q, TokenMatcher.spacyfy [some ("LOWER", "databesE")]
        [[("LOWER", PyVal.dict [("FREGEX", PyVal.str "(database)")]),
          ("OP", PyVal.str "+")]] = .ok q ∧
      List.Forall₂ (fun (pr : SlotResult × TokenSpec) (outspec : TokenSpec) =>
          ∀ a t, pr.1 = some (a, t) →
            alGet outspec "TEXT" = some (.str t) ∧
            (a ≠ "TEXT" → alGet outspec a = none) ∧
            (∀ k, k ≠ a → k ≠ "TEXT" → alGet outspec k = alGet pr.2 k))
        ([(some ("LOWER", "databesE") : SlotResult)].zip
          [[("LOWER", PyVal.dict [("FREGEX", PyVal.str "(database)")]),
            ("OP", PyVal.str "+")]]) q) ∧
    (∃ e, TokenMatcher.spacyfy [some ("TEXT", "SQL"), none]
        [[("TEXT", PyVal.str "SQL")], [("LOWER", PyVal.str "db")]] = .error e) :=
  ⟨c2_spacyfy_amended.1 _ _
      (List.Forall₂.cons ⟨"LOWER", "databesE", rfl, by decide, rfl⟩ List.Forall₂.nil),
    c2_spacyfy_amended.2 _ _ (by simp)⟩

/-- C3 counterexample: `add("X", [[{"TEXT": "a"}], []])` on an empty
matcher raises the zero-token `ValueError`, yet leaves the first pattern
registered under "X" — the rule set is not "exactly as it was before the
call", so `add` is not atomic. -/
theorem c3_add_counterexample :
    (TokenMatcher.add (⟨[], []⟩ : TokenMatcher.MatcherState Nat) "X"
        [.list [.dict [("TEXT", .str "a")]], .list []] none).2
      = some "ValueError: pattern cannot have zero tokens." ∧
    (TokenMatcher.add (⟨[], []⟩ : TokenMatcher.MatcherState Nat) "X"
        [.list [.dict [("TEXT", .str "a")]], .list []] none).1.patterns
      = [("X", [.list [.dict [("TEXT", .str "a")]]])] ∧
    ([("X", [PyVal.list [PyVal.dict [("TEXT", PyVal.str "a")]]])]
        : List (String × List PyVal)) ≠ [] :=
  ⟨rfl, rfl, by decide⟩

/-- C3 (amended): `add` is not atomic.  When every pattern is valid, all
of them are appended and the callback is replaced; when the first
invalid pattern is preceded by valid ones, `add` raises but the valid
prefix stays appended to the label's pattern list, and the callback
table is left untouched (so the rule set is unchanged only when the
failing pattern comes first). -/
theorem c3_add_amended {κ : Type} :
    (∀ (st : TokenMatcher.MatcherState κ) (label : String) (pats : List PyVal)
        (cb : Option κ),
      (∀ q ∈ pats, TokenMatcher.validPattern q = true) →
      TokenMatcher.add st label pats cb
        = (⟨pats.foldl (fun d q => TokenMatcher.ddAppend d label q) st.patterns,
            alSet st.callbacks label cb⟩, none)) ∧
    (∀ (st : TokenMatcher.MatcherState κ) (label : String) (pre : List PyVal)
        (p : PyVal) (post : List PyVal) (cb : Option κ),
      (∀ q ∈ pre, TokenMatcher.validPattern q = true) →
      TokenMatcher.validPattern p = false →
      ∃ e, TokenMatcher.add st label (pre ++ p :: post) cb
        = (⟨pre.foldl (fun d q => TokenMatcher.ddAppend d label q) st.patterns,
            st.callbacks⟩, some e)) := by
  constructor
  · intro st label pats cb hall
    unfold TokenMatcher.add
    rw [addLoop_all_valid pats st.patterns hall]
  · intro st label pre p post cb hpre hp
    obtain ⟨e, he⟩ := addLoop_prefix_invalid post hp pre st.patterns hpre
    refine ⟨e, ?_⟩
    unfold TokenMatcher.add
    rw [he]

/-- Witness for C3 (amended): both halves at concrete inputs — a fully
valid call, and the counterexample call with a valid pattern before the
empty one. -/
theorem c3_add_amended_witness :
    (TokenMatcher.add (⟨[], []⟩ : TokenMatcher.MatcherState Nat) "A"
        [.list [.dict [("TEXT", .str "x")]]] (some 5)
      = (⟨[("A", [.list [.dict [("TEXT", .str "x")]]])], [("A", some 5)]⟩, none)) ∧
    (∃ e, TokenMatcher.add (⟨[], []⟩ : TokenMatcher.MatcherState Nat) "X"
        ([.list [.dict [("TEXT", .str "a")]]] ++ (.list [] : PyVal) :: []) none
      = (⟨[("X", [.list [.dict [("TEXT", .str "a")]]])], []⟩, some e)) := by
  constructor
  · have h := (@c3_add_amended Nat).1 ⟨[], []⟩ "A"
      [.list [.dict [("TEXT", .str "x")]]] (some 5) (by decide)
    rw [h]
    rfl
  · obtain ⟨e, he⟩ := (@c3_add_amended Nat).2 ⟨[], []⟩ "X"
      [.list [.dict [("TEXT", .str "a")]]] (.list []) [] none (by decide) (by decide)
    refine ⟨e, ?_⟩
    rw [he]
    rfl

/-- C4: the final sort of `TokenMatcher.__call__` orders any match
multiset so that consecutive records satisfy: earlier start first;
at equal starts, longer spans first; at equal start and length, higher
confidence first — and the output is a permutation of the input (the
input order is arbitrary because Python iterates a `set`; callbacks are
then dispatched by enumerating this very list, so the same ordering
fixes the index passed to each callback). -/
theorem c4_output_ordering (l : List TokenMatcher.MatchRec) :
    (TokenMatcher.sortedMatches l).Pairwise (fun a b =>
      a.start < b.start ∨ (a.start = b.start ∧
        (b.stop - b.start < a.stop - a.start ∨
          (a.stop - a.start = b.stop - b.start ∧ b.ratio ≤ a.ratio)))) ∧
    (TokenMatcher.sortedMatches l).Perm l := by
  constructor
  · have hs := List.sorted_insertionSort TokenMatcher.sortRel l
    apply List.Pairwise.imp _ hs
    intro a b hab
    simp only [TokenMatcher.sortRel, TokenMatcher.tripleLe, TokenMatcher.matchKey] at hab
    omega
  · exact List.perm_insertionSort TokenMatcher.sortRel l

/-- C5: a `FUZZY` slot accepts a window token exactly when the
underlying similarity ratio between the (case-adjusted) token text and
target reaches the effective cutoff (per-slot `MIN_R` if present, else
the caller default `min_r`); rejection is the only alternative outcome.
Consequently, for a fixed document and pattern, lowering the caller
default never removes a candidate from the searcher's result, it can
only add new ones. -/
theorem c5_fuzzy_threshold :
    (∀ (R : FuzzyRegistry) (rex : RegexEngine) (min_r : Nat) (ff tok : String)
        (spec : TokenSpec) (d : List (String × PyVal)) (case : String) (cb : Bool),
      TokenSearcher.parse_case spec = (some (.dict d), case, cb) →
      (TokenSearcher.parse_type d).2 = "FUZZY" →
      (TokenSearcher.parse_type d).1 ≠ "" →
      (TokenSearcher.evalSlot R rex min_r ff tok spec = some (some (case, tok)) ↔
        TokenSearcher.getMinR d min_r ≤
          R (TokenSearcher.getFuzzyFunc d ff) (if cb then strLower tok else tok)
            (if cb then strLower (TokenSearcher.parse_type d).1
              else (TokenSearcher.parse_type d).1)) ∧
      (TokenSearcher.evalSlot R rex min_r ff tok spec = some (some (case, tok)) ∨
        TokenSearcher.evalSlot R rex min_r ff tok spec = none)) ∧
    (∀ (R : FuzzyRegistry) (rex : RegexEngine) (doc : List String)
        (pattern : List TokenSpec) (ff : String) (min_r min_r' : Nat)
        (out out' : List (List SlotResult)) (cand : List SlotResult),
      min_r' ≤ min_r →
      TokenSearcher.match' R rex doc pattern min_r ff = .ok out →
      TokenSearcher.match' R rex doc pattern min_r' ff = .ok out' →
      cand ∈ out → cand ∈ out') := by
  constructor
  · intro R rex min_r ff tok spec d case cb hpc hty hne
    have key : (TokenSearcher.fuzzy_compare R tok (TokenSearcher.parse_type d).1 cb
          (TokenSearcher.getMinR d min_r) (TokenSearcher.getFuzzyFunc d ff)
          ≥ TokenSearcher.getMinR d min_r) ↔
        (TokenSearcher.getMinR d min_r ≤
          R (TokenSearcher.getFuzzyFunc d ff) (if cb then strLower tok else tok)
            (if cb then strLower (TokenSearcher.parse_type d).1
              else (TokenSearcher.parse_type d).1)) := by
      unfold TokenSearcher.fuzzy_compare cutoffApply
      exact cutoff_accept_iff _ _
    simp only [TokenSearcher.evalSlot, hpc]
    rw [if_pos ⟨hne, hty⟩]
    by_cases hacc : TokenSearcher.fuzzy_compare R tok (TokenSearcher.parse_type d).1 cb
        (TokenSearcher.getMinR d min_r) (TokenSearcher.getFuzzyFunc d ff)
        ≥ TokenSearcher.getMinR d min_r
    · rw [if_pos hacc]
      exact ⟨⟨fun _ => key.mp hacc, fun _ => rfl⟩, Or.inl rfl⟩
    · rw [if_neg hacc]
      exact ⟨⟨fun hh => absurd hh (by simp), fun hr => absurd (key.mpr hr) hacc⟩,
        Or.inr rfl⟩
  · intro R rex doc pattern ff min_r min_r' out out' cand hle h1 h2 hc
    unfold TokenSearcher.match' at h1 h2
    by_cases hz : pattern.length = 0
    · rw [if_pos hz] at h1
      exact absurd h1 (by simp)
    · rw [if_neg hz] at h1 h2
      simp only [Except.ok.injEq] at h1 h2
      subst h1
      subst h2
      rw [mem_dedupFirst] at hc ⊢
      exact mem_rawCandidates_mono hle hc

/-- Witness for C5: a one-slot `LOWER` fuzzy pattern under an
equality-ratio registry; the candidate accepted at cutoff 80 is still
present when the default is lowered to 70. -/
theorem c5_fuzzy_threshold_witness :
    ((TokenSearcher.evalSlot (fun _ s1 s2 => if s1 = s2 then 100 else 0) (fun _ _ => false)
        80 "simple" "abc" [("LOWER", PyVal.dict [("FUZZY", PyVal.str "ABC")])]
      = some (some ("LOWER", "abc")) ↔
      TokenSearcher.getMinR [("FUZZY", PyVal.str "ABC")] 80 ≤
        (fun (_ s1 s2 : String) => if s1 = s2 then 100 else 0)
          (TokenSearcher.getFuzzyFunc [("FUZZY", PyVal.str "ABC")] "simple")
          (if true then strLower "abc" else "abc")
          (if true then strLower (TokenSearcher.parse_type [("FUZZY", PyVal.str "ABC")]).1
            else (TokenSearcher.parse_type [("FUZZY", PyVal.str "ABC")]).1))) ∧
    ([some ("LOWER", "abc")] : List SlotResult) ∈
      [[(some ("LOWER", "abc") : SlotResult)]] := by
  constructor
  · have h := (c5_fuzzy_threshold.1 (fun _ s1 s2 => if s1 = s2 then 100 else 0)
      (fun _ _ => false) 80 "simple" "abc"
      [("LOWER", PyVal.dict [("FUZZY", PyVal.str "ABC")])]
      [("FUZZY", PyVal.str "ABC")] "LOWER" true rfl rfl (by decide)).1
    exact h
  · exact c5_fuzzy_threshold.2 (fun _ s1 s2 => if s1 = s2 then 100 else 0)
      (fun _ _ => false) ["abc"] [[("LOWER", PyVal.dict [("FUZZY", PyVal.str "ABC")])]]
      "simple" 80 70 [[some ("LOWER", "abc")]] [[some ("LOWER", "abc")]]
      [some ("LOWER", "abc")] (by decide) rfl rfl (by simp)

/-- C6 counterexample: the token-spec
`{"TEXT": "", "LOWER": {"FUZZY": "ABC"}}` has a `TEXT` attribute
present, yet `_parse_case` tests Python truthiness (`if text:`), so the
falsy empty string falls through to `LOWER`: the slot is governed by
`LOWER`, is case-folded, and records `("LOWER", token)` — under an
equality-ratio registry the token "abc" matches the target "ABC" only
because both are lower-cased, which the claim's case-sensitive `TEXT`
reading forbids. -/
theorem c6_parse_case_counterexample :
    alGet [("TEXT", PyVal.str ""), ("LOWER", PyVal.dict [("FUZZY", PyVal.str "ABC")])]
        "TEXT" = some (PyVal.str "") ∧
    TokenSearcher.parse_case
        [("TEXT", PyVal.str ""), ("LOWER", PyVal.dict [("FUZZY", PyVal.str "ABC")])]
      = (some (PyVal.dict [("FUZZY", PyVal.str "ABC")]), "LOWER", true) ∧
    TokenSearcher.evalSlot (fun _ s1 s2 => if s1 = s2 then 100 else 0) (fun _ _ => false)
        75 "simple" "abc"
        [("TEXT", PyVal.str ""), ("LOWER", PyVal.dict [("FUZZY", PyVal.str "ABC")])]
      = some (some ("LOWER", "abc")) :=
  ⟨rfl, rfl, rfl⟩

/-- C6 (amended): the attribute dispatch follows Python truthiness, not
mere presence: a truthy `TEXT` value governs, case-sensitively; when
`TEXT` is absent or falsy (empty string, `False`, `0`, empty
constraint-object), `LOWER` governs, case-insensitively.  Case folding
is exactly the `ignore_case` flag of `fuzzy_compare`: with the flag off
both strings are compared as they are, with it on both are
lower-cased. -/
theorem c6_parse_case_amended :
    (∀ spec : TokenSpec, pyTruthy (alGet spec "TEXT") = true →
      TokenSearcher.parse_case spec = (alGet spec "TEXT", "TEXT", false)) ∧
    (∀ spec : TokenSpec, pyTruthy (alGet spec "TEXT") = false →
      TokenSearcher.parse_case spec = (alGet spec "LOWER", "LOWER", true)) ∧
    (∀ (R : FuzzyRegistry) (s1 s2 n : String) (c : Nat),
      TokenSearcher.fuzzy_compare R s1 s2 false c n = cutoffApply (R n) s1 s2 c ∧
      TokenSearcher.fuzzy_compare R s1 s2 true c n
        = cutoffApply (R n) (strLower s1) (strLower s2) c) := by
  refine ⟨?_, ?_, ?_⟩
  · intro spec h
    unfold TokenSearcher.parse_case
    rw [if_pos h]
  · intro spec h
    unfold TokenSearcher.parse_case
    rw [if_neg (by rw [h]; exact Bool.false_ne_true)]
  · intro R s1 s2 n c
    exact ⟨rfl, rfl⟩

/-- Witness for C6 (amended): a truthy `TEXT` spec dispatches to `TEXT`
case-sensitively; the counterexample's falsy-`TEXT` spec dispatches to
`LOWER` case-insensitively. -/
theorem c6_parse_case_amended_witness :
    TokenSearcher.parse_case [("TEXT", PyVal.dict [("FUZZY", PyVal.str "Ridley")])]
      = (alGet [("TEXT", PyVal.dict [("FUZZY", PyVal.str "Ridley")])] "TEXT",
          "TEXT", false) ∧
    TokenSearcher.parse_case
        [("TEXT", PyVal.str ""), ("LOWER", PyVal.dict [("FUZZY", PyVal.str "ABC")])]
      = (alGet [("TEXT", PyVal.str ""),
            ("LOWER", PyVal.dict [("FUZZY", PyVal.str "ABC")])] "LOWER",
          "LOWER", true) :=
  ⟨c6_parse_case_amended.1 _ (by decide), c6_parse_case_amended.2.1 _ (by decide)⟩

/-- C7: for every document and nonempty pattern, `TokenSearcher.match`
returns the per-window candidates with duplicates collapsed to their
first occurrence: the result has no duplicate candidate, contains
exactly the candidates of the raw window scan, and lists them in
strictly increasing order of first occurrence in that scan (window
order, left to right). -/
theorem c7_dedup_first_seen (R : FuzzyRegistry) (rex : RegexEngine) (doc : List String)
    (pattern : List TokenSpec) (min_r : Nat) (ff : String)
    (hne : pattern ≠ []) :
    ∃ out, TokenSearcher.match' R rex doc pattern min_r ff = .ok out ∧
      out.Nodup ∧
      (∀ c, c ∈ out ↔ c ∈ TokenSearcher.rawCandidates R rex doc pattern min_r ff) ∧
      out.Pairwise (fun c d =>
        firstIdx (TokenSearcher.rawCandidates R rex doc pattern min_r ff) c
          < firstIdx (TokenSearcher.rawCandidates R rex doc pattern min_r ff) d) := by
  refine ⟨TokenSearcher.dedupFirst
    (TokenSearcher.rawCandidates R rex doc pattern min_r ff), ?_, ?_, ?_, ?_⟩
  · unfold TokenSearcher.match'
    rw [if_neg (by simpa [List.length_eq_zero] using hne)]
  · exact dedupFirst_nodup _
  · intro c
    exact mem_dedupFirst _
  · exact dedupFirst_pairwise
      (TokenSearcher.rawCandidates R rex doc pattern min_r ff)

/-- Witness for C7: two identical windows produce one candidate. -/
theorem c7_dedup_first_seen_witness :
    ∃ out, TokenSearcher.match' (fun _ s1 s2 => if s1 = s2 then 100 else 0)
        (fun _ _ => false) ["abc", "abc"]
        [[("LOWER", PyVal.dict [("FUZZY", PyVal.str "ABC")])]] 75 "simple" = .ok out ∧
      out.Nodup ∧
      (∀ c, c ∈ out ↔ c ∈ TokenSearcher.rawCandidates
        (fun _ s1 s2 => if s1 = s2 then 100 else 0) (fun _ _ => false) ["abc", "abc"]
        [[("LOWER", PyVal.dict [("FUZZY", PyVal.str "ABC")])]] 75 "simple") ∧
      out.Pairwise (fun c d =>
        firstIdx (TokenSearcher.rawCandidates (fun _ s1 s2 => if s1 = s2 then 100 else 0)
          (fun _ _ => false) ["abc", "abc"]
          [[("LOWER", PyVal.dict [("FUZZY", PyVal.str "ABC")])]] 75 "simple") c
          < firstIdx (TokenSearcher.rawCandidates (fun _ s1 s2 => if s1 = s2 then 100 else 0)
            (fun _ _ => false) ["abc", "abc"]
            [[("LOWER", PyVal.dict [("FUZZY", PyVal.str "ABC")])]] 75 "simple") d) :=
  c7_dedup_first_seen (fun _ s1 s2 => if s1 = s2 then 100 else 0) (fun _ _ => false)
    ["abc", "abc"] [[("LOWER", PyVal.dict [("FUZZY", PyVal.str "ABC")])]] 75 "simple"
    (by decide)

/-- C8: re-registering an existing label with valid patterns appends
them, in order, to the label's existing pattern list (duplicates
allowed), replaces that label's callback with the newly supplied
`on_match`, leaves every other label's pattern list untouched and keeps
the key set of the rule dict unchanged — labels remain unique keys. -/
theorem c8_add_appends_and_replaces_callback {κ : Type}
    (st : TokenMatcher.MatcherState κ) (label : String) (pats : List PyVal)
    (cb : Option κ) (old : List PyVal)
    (hvalid : ∀ q ∈ pats, TokenMatcher.validPattern q = true)
    (hold : alGet st.patterns label = some old) :
    (TokenMatcher.add st label pats cb).2 = none ∧
    alGet (TokenMatcher.add st label pats cb).1.patterns label = some (old ++ pats) ∧
    (∀ l, l ≠ label →
      alGet (TokenMatcher.add st label pats cb).1.patterns l = alGet st.patterns l) ∧
    (TokenMatcher.add st label pats cb).1.patterns.map Prod.fst
      = st.patterns.map Prod.fst ∧
    alGet (TokenMatcher.add st label pats cb).1.callbacks label = some cb := by
  unfold TokenMatcher.add
  rw [addLoop_all_valid pats st.patterns hvalid]
  refine ⟨rfl, ?_, ?_, ?_, ?_⟩
  · exact foldl_ddAppend_get_self pats st.patterns old hold
  · intro l hl
    exact foldl_ddAppend_get_ne hl pats st.patterns
  · exact foldl_ddAppend_keys pats st.patterns old hold
  · exact alGet_alSet_self st.callbacks label cb

/-- Witness for C8: a matcher already holding one pattern under "A"
receives a second pattern and a new callback for "A". -/
theorem c8_add_appends_and_replaces_callback_witness :
    (TokenMatcher.add (⟨[("A", [.list [.dict [("TEXT", .str "old")]]])], [("A", none)]⟩
        : TokenMatcher.MatcherState Nat) "A"
      [.list [.dict [("TEXT", .str "new")]]] (some 3)).2 = none ∧
    alGet (TokenMatcher.add (⟨[("A", [.list [.dict [("TEXT", .str "old")]]])], [("A", none)]⟩
        : TokenMatcher.MatcherState Nat) "A"
      [.list [.dict [("TEXT", .str "new")]]] (some 3)).1.patterns "A"
      = some ([.list [.dict [("TEXT", .str "old")]]] ++ [.list [.dict [("TEXT", .str "new")]]]) ∧
    (TokenMatcher.add (⟨[("A", [.list [.dict [("TEXT", .str "old")]]])], [("A", none)]⟩
        : TokenMatcher.MatcherState Nat) "A"
      [.list [.dict [("TEXT", .str "new")]]] (some 3)).1.patterns.map Prod.fst
      = [("A", [PyVal.list [PyVal.dict [("TEXT", PyVal.str "old")]]])].map Prod.fst ∧
    alGet (TokenMatcher.add (⟨[("A", [.list [.dict [("TEXT", .str "old")]]])], [("A", none)]⟩
        : TokenMatcher.MatcherState Nat) "A"
      [.list [.dict [("TEXT", .str "new")]]] (some 3)).1.callbacks "A" = some (some 3) :=
  ⟨(c8_add_appends_and_replaces_callback
      (⟨[("A", [.list [.dict [("TEXT", .str "old")]]])], [("A", none)]⟩
        : TokenMatcher.MatcherState Nat)
      "A" [.list [.dict [("TEXT", .str "new")]]] (some 3)
      [.list [.dict [("TEXT", .str "old")]]] (by decide) rfl).1,
    (c8_add_appends_and_replaces_callback
      (⟨[("A", [.list [.dict [("TEXT", .str "old")]]])], [("A", none)]⟩
        : TokenMatcher.MatcherState Nat)
      "A" [.list [.dict [("TEXT", .str "new")]]] (some 3)
      [.list [.dict [("TEXT", .str "old")]]] (by decide) rfl).2.1,
    (c8_add_appends_and_replaces_callback
      (⟨[("A", [.list [.dict [("TEXT", .str "old")]]])], [("A", none)]⟩
        : TokenMatcher.MatcherState Nat)
      "A" [.list [.dict [("TEXT", .str "new")]]] (some 3)
      [.list [.dict [("TEXT", .str "old")]]] (by decide) rfl).2.2.2.1,
    (c8_add_appends_and_replaces_callback
      (⟨[("A", [.list [.dict [("TEXT", .str "old")]]])], [("A", none)]⟩
        : TokenMatcher.MatcherState Nat)
      "A" [.list [.dict [("TEXT", .str "new")]]] (some 3)
      [.list [.dict [("TEXT", .str "old")]]] (by decide) rfl).2.2.2.2⟩

/-- C9: `add(label, [])` on a label not yet registered succeeds without
raising, registers no pattern — the label stays absent from `_patterns`,
so containment and the label count are unchanged — yet writes a callback
entry for the label; a subsequent `remove(label)` raises the
label-not-found `ValueError` and leaves the state, orphaned callback
entry included, untouched. -/
theorem c9_add_empty_pattern_list {κ : Type} (st : TokenMatcher.MatcherState κ)
    (label : String) (cb : Option κ)
    (habs : alContains st.patterns label = false) :
    (TokenMatcher.add st label [] cb).2 = none ∧
    (TokenMatcher.add st label [] cb).1.patterns = st.patterns ∧
    TokenMatcher.containsLabel (TokenMatcher.add st label [] cb).1 label = false ∧
    TokenMatcher.labelCount (TokenMatcher.add st label [] cb).1
      = TokenMatcher.labelCount st ∧
    alGet (TokenMatcher.add st label [] cb).1.callbacks label = some cb ∧
    (TokenMatcher.remove (TokenMatcher.add st label [] cb).1 label).2
      = some "ValueError: The label does not exist within the matcher rules." ∧
    (TokenMatcher.remove (TokenMatcher.add st label [] cb).1 label).1
      = (TokenMatcher.add st label [] cb).1 := by
  have hstep : TokenMatcher.add st label [] cb
      = (⟨st.patterns, alSet st.callbacks label cb⟩, none) := rfl
  rw [hstep]
  have hcond : ¬ (alContains st.patterns label = true) := by
    rw [habs]
    exact Bool.false_ne_true
  have hrem : TokenMatcher.remove
      (⟨st.patterns, alSet st.callbacks label cb⟩ : TokenMatcher.MatcherState κ) label
      = (⟨st.patterns, alSet st.callbacks label cb⟩,
          some "ValueError: The label does not exist within the matcher rules.") := by
    unfold TokenMatcher.remove
    rw [if_neg hcond]
  refine ⟨rfl, rfl, habs, rfl, alGet_alSet_self _ _ _, ?_, ?_⟩
  · rw [hrem]
  · rw [hrem]

/-- Witness for C9: adding an empty pattern list under a fresh label. -/
theorem c9_add_empty_pattern_list_witness :
    (TokenMatcher.add (⟨[("A", [.list [.dict []]])], []⟩
        : TokenMatcher.MatcherState Nat) "B" [] (some 7)).2 = none ∧
    (TokenMatcher.add (⟨[("A", [.list [.dict []]])], []⟩
        : TokenMatcher.MatcherState Nat) "B" [] (some 7)).1.patterns
      = [("A", [.list [.dict []]])] ∧
    TokenMatcher.containsLabel
      (TokenMatcher.add (⟨[("A", [.list [.dict []]])], []⟩
        : TokenMatcher.MatcherState Nat) "B" [] (some 7)).1 "B" = false ∧
    alGet (TokenMatcher.add (⟨[("A", [.list [.dict []]])], []⟩
        : TokenMatcher.MatcherState Nat) "B" [] (some 7)).1.callbacks "B"
      = some (some 7) ∧
    (TokenMatcher.remove (TokenMatcher.add (⟨[("A", [.list [.dict []]])], []⟩
        : TokenMatcher.MatcherState Nat) "B" [] (some 7)).1 "B").2
      = some "ValueError: The label does not exist within the matcher rules." :=
  ⟨(c9_add_empty_pattern_list _ "B" (some 7) (by decide)).1,
    (c9_add_empty_pattern_list _ "B" (some 7) (by decide)).2.1,
    (c9_add_empty_pattern_list _ "B" (some 7) (by decide)).2.2.1,
    (c9_add_empty_pattern_list _ "B" (some 7) (by decide)).2.2.2.2.1,
    (c9_add_empty_pattern_list _ "B" (some 7) (by decide)).2.2.2.2.2.1⟩

/-- C10: `_parse_type` gives `FUZZY` precedence whenever its value is a
string, even when an `FREGEX` key is also present; and when neither
`FUZZY` nor `FREGEX` carries a string value, the constraint-slot is
recorded as `None` — deferred to the exact matcher — rather than raising
or being evaluated fuzzily. -/
theorem c10_parse_type_precedence_and_deferral :
    (∀ (d : List (String × PyVal)) (s : String),
      alGet d "FUZZY" = some (.str s) → TokenSearcher.parse_type d = (s, "FUZZY")) ∧
    (∀ (R : FuzzyRegistry) (rex : RegexEngine) (min_r : Nat) (ff tok : String)
        (spec : TokenSpec) (d : List (String × PyVal)) (case : String) (cb : Bool),
      TokenSearcher.parse_case spec = (some (.dict d), case, cb) →
      (∀ s, alGet d "FUZZY" ≠ some (.str s)) →
      (∀ s, alGet d "FREGEX" ≠ some (.str s)) →
      TokenSearcher.evalSlot R rex min_r ff tok spec = some none) := by
  constructor
  · intro d s h
    unfold TokenSearcher.parse_type
    rw [h]
  · intro R rex min_r ff tok spec d case cb hpc hf hr
    have hpt : TokenSearcher.parse_type d = ("", "") := by
      unfold TokenSearcher.parse_type
      split
      · next s heq => exact absurd heq (hf s)
      · split
        · next s heq => exact absurd heq (hr s)
        · rfl
    simp only [TokenSearcher.evalSlot, hpc]
    rw [hpt]
    simp

/-- Witness for C10: `FUZZY` string precedence over a present `FREGEX`,
and deferral when `FUZZY` is a boolean (spaCy's plain fuzzy-less
pattern option) and no `FREGEX` is given. -/
theorem c10_parse_type_precedence_and_deferral_witness :
    TokenSearcher.parse_type [("FUZZY", PyVal.str "x"), ("FREGEX", PyVal.str "y")]
      = ("x", "FUZZY") ∧
    TokenSearcher.evalSlot (fun _ s1 s2 => if s1 = s2 then 100 else 0) (fun _ _ => false)
        75 "simple" "tok" [("LOWER", PyVal.dict [("FUZZY", PyVal.bool true)])]
      = some none :=
  ⟨c10_parse_type_precedence_and_deferral.1 _ "x" rfl,
    c10_parse_type_precedence_and_deferral.2 _ _ 75 "simple" "tok" _ _ "LOWER" true rfl
      (by intro s h; simp [alGet] at h)
      (by intro s h; simp [alGet] at h)⟩
